import Mathlib

/-!
Verification development for the resuMAX content-relevance scoring and
one-page fitting engine.  Each definition is a shallow embedding of the
corresponding Python function; file and line references point into the
repository sources.  Machine floats are modelled as rationals, and calls
into external libraries (sentence-transformers / sklearn similarity
backends, reportlab font metrics, the weasyprint page counter) are
modelled as explicit oracle parameters, since their outputs are produced
outside the repository.
-/

namespace SemanticMatcher

/-- Result record built by SemanticMatcher.compute_similarity
(backend/app/semantic_matcher.py, lines 144-152): one dict per bullet
with keys bullet, original_index, score, rank. -/
structure SimResult where
  bullet : String
  original_index : Nat
  score : ℚ
  rank : Nat
deriving DecidableEq, Repr

/-- Embedding of the result-list construction
`for i, (bullet, score) in enumerate(zip(resume_bullets, similarities))`
(semantic_matcher.py lines 145-152): each record is created with its
enumeration index and a rank placeholder of 0. -/
def buildResults : Nat → List (String × ℚ) → List SimResult
  | _, [] => []
  | i, (b, s) :: rest => ⟨b, i, s, 0⟩ :: buildResults (i + 1) rest

/-- Embedding of the rank-assignment loop
`for rank, result in enumerate(results, start=1): result["rank"] = rank`
(semantic_matcher.py lines 158-159). -/
def assignRanks : Nat → List SimResult → List SimResult
  | _, [] => []
  | k, r :: rest => { r with rank := k } :: assignRanks (k + 1) rest

/-- Sort relation used by `results.sort(key=lambda x: x["score"], reverse=True)`
(semantic_matcher.py line 155).  Python's list.sort is a stable sort; a
stable descending sort keeps elements with equal scores in their original
relative order, which insertionSort with this reflexive relation
reproduces exactly (an element is inserted before the first element whose
score is less than or equal to its own, i.e. after every earlier-inserted
equal-score element). -/
def simSortRel (a b : SimResult) : Prop := b.score ≤ a.score

instance : DecidableRel simSortRel := fun a b => inferInstanceAs (Decidable (b.score ≤ a.score))

/-- Embedding of SemanticMatcher.compute_similarity
(backend/app/semantic_matcher.py, lines 85-161).  The parameter `sims`
is the external similarity backend: the composition of `encode` (either
a sentence-transformers model or the sklearn TF-IDF vectorizer) with
`sklearn.metrics.pairwise.cosine_similarity`, returning one similarity
value per bullet.  It is passed the whole bullet list because the TF-IDF
fallback vectorizer is fitted on the corpus.  The function body mirrors
the source exactly: the empty-input guard, record construction with the
enumeration index, the stable descending sort by score, and 1-based rank
assignment.  Note that the score is passed through unaltered (the source
only converts the numpy float via `float(score)`), and that nothing in
the function inspects `job_description` beyond handing it to the
backend: there is no empty-context branch and no lowConfidence field. -/
def compute_similarity (sims : List String → String → List ℚ)
    (resume_bullets : List String) (job_description : String) : List SimResult :=
  if resume_bullets.isEmpty then []
  else
    assignRanks 1
      (List.insertionSort simSortRel
        (buildResults 0 (resume_bullets.zip (sims resume_bullets job_description))))

/-- Strict ordering stated by the specification for the output of the
scorer: descending score, ties broken by ascending original index. -/
def simLex (a b : SimResult) : Prop :=
  b.score < a.score ∨ (a.score = b.score ∧ a.original_index < b.original_index)

/-- Dot product of two rational vectors.  Used to ground counterexample
similarity values: sklearn's cosine_similarity divides the dot product by
the Euclidean norms of its arguments, so on vectors of norm 1 it returns
exactly the dot product. -/
def dotProduct : List ℚ → List ℚ → ℚ
  | a :: as, b :: bs => a * b + dotProduct as bs
  | _, _ => 0

end SemanticMatcher

namespace Optimizer

/-- Character class of the regex word pattern used by
re.findall(r'\b\w+\b', ...) in backend/app/optimizer.py line 261
(ASCII approximation of the \w class: alphanumeric or underscore). -/
def isWordChar (c : Char) : Bool := c.isAlphanum || c = '_'

/-- Accumulator pass splitting a character list into maximal runs of
word characters; models re.findall(r'\b\w+\b', s). -/
def wordsAux : List Char → List Char → List String
  | [], acc => if acc.isEmpty then [] else [String.mk acc.reverse]
  | c :: cs, acc =>
    if isWordChar c then wordsAux cs (c :: acc)
    else if acc.isEmpty then wordsAux cs []
    else String.mk acc.reverse :: wordsAux cs []

/-- Word list of a string, as produced by re.findall(r'\b\w+\b', s). -/
def wordsOf (s : String) : List String := wordsAux s.toList []

/-- Boolean substring containment on character lists, the semantics of
Python's `sub in s` on strings. -/
def listContains (sub : List Char) : List Char → Bool
  | [] => sub.isEmpty
  | c :: rest => sub.isPrefixOf (c :: rest) || listContains sub rest

/-- Python's `sub in s` substring test. -/
def pyIn (sub s : String) : Bool := listContains sub.toList s.toList

/-- Python's str.lower(), modelled characterwise over the string's
character data (an ASCII-faithful model of the source's .lower()
calls). -/
def pyLower (s : String) : String := String.mk (s.data.map Char.toLower)

/-- Input dictionary of calculate_overall_score: the `skills` and
`keywords` entries of the job-keyword dict (absent keys default to []).
The source converts both to Python sets, which the embedding models by
deduplicating the lists. -/
structure JobKeywords where
  skills : List String
  keywords : List String

/-- Round-half-to-even on rationals, the rounding rule of Python's
built-in round(). -/
def roundHalfEven (q : ℚ) : ℤ :=
  let f := ⌊q⌋
  let r := q - (f : ℚ)
  if r < 1/2 then f
  else if 1/2 < r then f + 1
  else if f % 2 = 0 then f else f + 1

/-- Python's round(x, 2) on the rational model. -/
def round2 (q : ℚ) : ℚ := ((roundHalfEven (q * 100) : ℤ) : ℚ) / 100

/-- Embedding of calculate_overall_score (backend/app/optimizer.py,
lines 239-268).  Mirrors the source: if the job-skill set is empty the
function returns the default 50.0 before any scoring; otherwise it
combines the fraction of job skills found as substrings of the lowered
resume text (weight 0.7) with the capped keyword-overlap ratio
(weight 0.3) and rounds to two decimals.  Rationals replace IEEE floats;
the 0.7/0.3 weights are taken at their exact decimal values. -/
def calculate_overall_score (resume_text : String) (job_keywords : JobKeywords) : ℚ :=
  let resume_lower := pyLower resume_text
  let job_skills := job_keywords.skills.dedup
  let job_kws := job_keywords.keywords.dedup
  if job_skills.isEmpty then 50
  else
    let matching_skills := job_skills.countP (fun skill => pyIn skill resume_lower)
    let skill_score : ℚ := ((matching_skills : ℚ) / (job_skills.length : ℚ)) * 100
    let resume_words := (wordsOf resume_lower).dedup
    let matching_kws := resume_words.countP (fun w => job_kws.contains w)
    let keyword_score : ℚ := min (((matching_kws : ℚ) / (max job_kws.length 1 : ℚ)) * 100) 100
    round2 (skill_score * (7/10) + keyword_score * (3/10))

end Optimizer

namespace BulletClassifier

/-- Categories of resume bullet points (backend/app/bullet_classifier.py,
lines 19-26), in the declaration order of the Python Enum, which is also
the insertion order of the scores dict built in classify_bullet. -/
inductive BulletCategory where
  | achievement
  | leadership
  | technical
  | project
  | responsibility
  | education
deriving DecidableEq, Repr

/-- Keyword triggers of CATEGORY_INDICATORS
(bullet_classifier.py lines 30-81).  The dict has no entry for
EDUCATION, so that category owns no keywords: its score is never
incremented. -/
def keywordsFor : BulletCategory → List String
  | .achievement =>
      ["increased", "decreased", "improved", "reduced", "generated",
       "saved", "achieved", "exceeded", "delivered", "launched",
       "grew", "boosted", "optimized", "accelerated", "won"]
  | .leadership =>
      ["led", "managed", "supervised", "mentored", "coached",
       "directed", "coordinated", "guided", "trained", "hired",
       "onboarded", "team", "cross-functional", "stakeholder"]
  | .technical =>
      ["developed", "built", "implemented", "designed", "architected",
       "engineered", "coded", "programmed", "deployed", "integrated",
       "configured", "automated", "migrated", "refactored"]
  | .project =>
      ["project", "initiative", "campaign", "program", "product",
       "system", "platform", "application", "tool", "feature"]
  | .responsibility =>
      ["responsible for", "duties include", "maintained", "monitored",
       "supported", "assisted", "handled", "processed", "conducted",
       "performed", "ensured", "managed day-to-day"]
  | .education => []

/-- Regex pattern sources of CATEGORY_INDICATORS
(bullet_classifier.py lines 30-81); matching itself is delegated to a
re.search oracle.  PROJECT and RESPONSIBILITY declare empty pattern
lists, and EDUCATION has no entry in the dict at all. -/
def patternsFor : BulletCategory → List String
  | .achievement =>
      ["\\d+%", "\\$\\d+[kmb]?", "\\d+x", "\\d+\\s*(million|thousand|billion)"]
  | .leadership =>
      ["team of \\d+", "led \\d+ (engineers|developers|analysts|designers)"]
  | .technical =>
      ["\\b(python|java|react|sql|aws|docker|kubernetes)\\b",
       "using (python|react|aws|docker)"]
  | _ => []

/-- Score of one category for a lowered bullet (classify_bullet,
lines 106-117): +1 per keyword contained as a substring, +2 per regex
pattern reported matching by the re.search oracle. -/
def catScore (reSearch : String → String → Bool) (bulletLower : String)
    (cat : BulletCategory) : Nat :=
  (keywordsFor cat).countP (fun k => Optimizer.pyIn k bulletLower)
    + 2 * (patternsFor cat).countP (fun p => reSearch p bulletLower)

/-- Enum members in declaration order: the iteration order of the scores
dict in classify_bullet. -/
def allCategories : List BulletCategory :=
  [.achievement, .leadership, .technical, .project, .responsibility, .education]

/-- Python's max(scores.values()).  Category scores are natural numbers,
so folding Nat.max with base 0 agrees with Python's max over the
non-empty value list. -/
def maxScoreVal (f : BulletCategory → Nat) : Nat :=
  (allCategories.map f).foldr Nat.max 0

/-- Python's max(scores, key=scores.get): iterate the keys in dict
order, replacing the current best only on a strictly greater value, so
the first key attaining the maximum wins. -/
def argmaxCat (f : BulletCategory → Nat) : BulletCategory :=
  List.foldl (fun best c => if f c > f best then c else best)
    BulletCategory.achievement
    [.leadership, .technical, .project, .responsibility, .education]

/-- Embedding of classify_bullet (bullet_classifier.py, lines 84-124):
lowercase the bullet, score each category, return the first category
with the maximal score if that maximum is positive, else default to
RESPONSIBILITY.  The re.search oracle parameter stands for Python's
regex engine. -/
def classify_bullet (reSearch : String → String → Bool) (bullet : String) :
    BulletCategory :=
  let f := catScore reSearch (Optimizer.pyLower bullet)
  if 0 < maxScoreVal f then argmaxCat f else .responsibility

/-- Record stored in the categorized dict by classify_bullets
(bullet_classifier.py lines 158-164): text, original index, category
(the category.value string carries the same information as the tag). -/
structure CB where
  text : String
  index : Nat
  category : BulletCategory
deriving DecidableEq, Repr

/-- Classification pass of classify_bullets: one record per bullet, in
enumeration order. -/
def buildCB (reSearch : String → String → Bool) : Nat → List String → List CB
  | _, [] => []
  | i, b :: rest => ⟨b, i, classify_bullet reSearch b⟩ :: buildCB reSearch (i + 1) rest

/-- Embedding of classify_bullets (bullet_classifier.py, lines 127-166)
as the bucket map it produces: the Python function appends each record
to its category's list while enumerating, so each bucket equals the
full record list filtered to that category, in index order.  Every
category key is present (initialised to []), so the .get(category, [])
reads in balance_categories are total. -/
def classify_bullets (reSearch : String → String → Bool) (bullets : List String)
    (cat : BulletCategory) : List CB :=
  (buildCB reSearch 0 bullets).filter (fun r => r.category == cat)

/-- Priority order of balance_categories (bullet_classifier.py
lines 194-201). -/
def priority_order : List BulletCategory :=
  [.achievement, .leadership, .technical, .project, .responsibility, .education]

/-- Target distribution of balance_categories (lines 204-211), with the
decimal literals read exactly. -/
def target_distribution : BulletCategory → ℚ
  | .achievement => 0.40
  | .leadership => 0.20
  | .technical => 0.25
  | .project => 0.10
  | .responsibility => 0.05
  | .education => 0

/-- Per-category target count, int(max_bullets * fraction)
(lines 214-217): truncation of a non-negative product, i.e. the floor. -/
def targetCount (max_bullets : Nat) (cat : BulletCategory) : Nat :=
  (Int.floor ((max_bullets : ℚ) * target_distribution cat)).toNat

/-- Quota phase of balance_categories (lines 220-225): for each category
in priority order, take up to the target count from the FRONT of that
category's bucket — the records in classification (ascending index)
order.  The records carry no score field, so no score is consulted. -/
def quotaSelected (cb : BulletCategory → List CB) (max_bullets : Nat) : List CB :=
  priority_order.flatMap (fun cat => (cb cat).take (targetCount max_bullets cat))

/-- Fill phase of balance_categories (lines 227-240): iterate categories
in priority order, appending not-yet-selected records from the front of
each bucket until the remaining slot count reaches zero. -/
def fillPhase (cb : BulletCategory → List CB) :
    List BulletCategory → List CB → Nat → List CB
  | [], selected, _ => selected
  | cat :: cats, selected, remaining =>
    if remaining = 0 then selected
    else
      let available := (cb cat).filter (fun b => !(selected.contains b))
      let toTake := min remaining available.length
      fillPhase cb cats (selected ++ available.take toTake) (remaining - toTake)

/-- Embedding of balance_categories (bullet_classifier.py,
lines 169-243): quota phase, fill phase, then truncate to max_bullets
and return the bullet texts. -/
def balance_categories (cb : BulletCategory → List CB) (max_bullets : Nat) :
    List String :=
  let selected := quotaSelected cb max_bullets
  let selected' := fillPhase cb priority_order selected (max_bullets - selected.length)
  (selected'.take max_bullets).map (fun b => b.text)

end BulletClassifier

namespace ResumeLayoutEngine

/-- Contact-info dict of the parsed resume
(resume_layout_engine.py lines 348-381): the keys read by the renderer;
normalize passes the whole dict through unchanged. -/
structure Contact where
  name : String
  email : String
  phone : String
  website : String
  linkedin : String
  github : String
deriving DecidableEq, Repr

/-- Experience entry of the parsed resume as read by
ResumeNormalizer.normalize (lines 68-85): the four hard fields read
with .get(key, "") plus the raw bullet strings. -/
structure ParsedExp where
  title : String
  company : String
  location : String
  date : String
  bullets : List String
deriving DecidableEq, Repr

/-- Project entry of the parsed resume (normalize, lines 89-104). -/
structure ParsedProj where
  name : String
  tech_stack : String
  link : String
  bullets : List String
deriving DecidableEq, Repr

/-- Education entry: passed through normalize untouched (line 111); the
fields are those the template reads (school, degree, location, year). -/
structure EduEntry where
  school : String
  degree : String
  location : String
  year : String
deriving DecidableEq, Repr

/-- Parsed resume dict as consumed by normalize: contact_info,
experience, projects, education, skills (skills modelled as the
category-to-list association it is rendered from, passed through
untouched). -/
structure ParsedResume where
  contact_info : Contact
  experience : List ParsedExp
  projects : List ParsedProj
  education : List EduEntry
  skills : List (String × List String)
deriving DecidableEq, Repr

/-- Normalized bullet {"text": ..., "score": ...} (normalize,
lines 69-75). -/
structure NBullet where
  text : String
  score : ℚ
deriving DecidableEq, Repr

/-- Normalized experience entry (normalize, lines 79-85). -/
structure NExp where
  title : String
  company : String
  location : String
  date : String
  bullets : List NBullet
deriving DecidableEq, Repr

/-- Normalized project entry (normalize, lines 99-104). -/
structure NProj where
  name : String
  tech_stack : String
  link : String
  bullets : List NBullet
deriving DecidableEq, Repr

/-- Normalized resume (normalize, lines 106-113). -/
structure NData where
  name : String
  contact : Contact
  experience : List NExp
  projects : List NProj
  education : List EduEntry
  skills : List (String × List String)
deriving DecidableEq, Repr

/-- Score lookup in the score_map dict comprehension
`{item["bullet"]: item["score"] for item in semantic_scores}` followed by
.get(bullet, 0) (lines 64, 72): in a dict comprehension a later item
with the same key overwrites an earlier one, hence the reversed find. -/
def scoreMapGet (semantic_scores : List (String × ℚ)) (bullet : String) : ℚ :=
  match semantic_scores.reverse.find? (fun p => p.1 == bullet) with
  | some p => p.2
  | none => 0

/-- Sort relation of `bullets_with_scores.sort(key=lambda b: b["score"],
reverse=True)` (line 77): Python's stable descending sort, modelled as
insertion sort with the reflexive score comparison (equal-score bullets
keep their original relative order). -/
def bulletSortRel (a b : NBullet) : Prop := b.score ≤ a.score

instance : DecidableRel bulletSortRel := fun a b => inferInstanceAs (Decidable (b.score ≤ a.score))

/-- Stable descending sort of the scored bullets. -/
def sortBullets (l : List NBullet) : List NBullet := List.insertionSort bulletSortRel l

/-- Normalization of one experience entry (normalize, lines 68-85). -/
def normalizeExp (semantic_scores : List (String × ℚ)) (e : ParsedExp) : NExp :=
  { title := e.title, company := e.company, location := e.location, date := e.date,
    bullets := sortBullets (e.bullets.map (fun b => ⟨b, scoreMapGet semantic_scores b⟩)) }

/-- Normalization of one project entry (normalize, lines 89-104). -/
def normalizeProj (semantic_scores : List (String × ℚ)) (p : ParsedProj) : NProj :=
  { name := p.name, tech_stack := p.tech_stack, link := p.link,
    bullets := sortBullets (p.bullets.map (fun b => ⟨b, scoreMapGet semantic_scores b⟩)) }

/-- Embedding of ResumeNormalizer.normalize (resume_layout_engine.py,
lines 34-113): merge semantic scores into each entry's bullets, sort
them by descending score, and pass every other field through
unchanged. -/
def normalize (parsed_resume : ParsedResume) (semantic_scores : List (String × ℚ)) : NData :=
  { name := parsed_resume.contact_info.name,
    contact := parsed_resume.contact_info,
    experience := parsed_resume.experience.map (normalizeExp semantic_scores),
    projects := parsed_resume.projects.map (normalizeProj semantic_scores),
    education := parsed_resume.education,
    skills := parsed_resume.skills }

/-- Position of one bullet during the scan of
OverflowManager._remove_lowest_bullet (lines 480-504): section flag
(experience first, then projects), entry index, bullet index, and the
bullet's score. -/
structure Cand where
  isProj : Bool
  entryIdx : Nat
  bulletIdx : Nat
  score : ℚ
deriving DecidableEq, Repr

/-- Candidates of one entry's bullet list, in enumerate order. -/
def bulletCands (isProj : Bool) (ei : Nat) : Nat → List NBullet → List Cand
  | _, [] => []
  | bi, b :: bs => ⟨isProj, ei, bi, b.score⟩ :: bulletCands isProj ei (bi + 1) bs

/-- Candidates of the experience section, entries in enumerate order
(lines 487-494). -/
def entryCandsExp : Nat → List NExp → List Cand
  | _, [] => []
  | ei, e :: es => bulletCands false ei 0 e.bullets ++ entryCandsExp (ei + 1) es

/-- Candidates of the projects section (lines 497-504). -/
def entryCandsProj : Nat → List NProj → List Cand
  | _, [] => []
  | ei, p :: ps => bulletCands true ei 0 p.bullets ++ entryCandsProj (ei + 1) ps

/-- Full scan order of _remove_lowest_bullet: all experience bullets,
then all project bullets. -/
def candidates (d : NData) : List Cand :=
  entryCandsExp 0 d.experience ++ entryCandsProj 0 d.projects

/-- Lowest-candidate tracking of _remove_lowest_bullet: lowest_score
starts at float('inf') and is replaced only on a strictly smaller score,
so the first candidate always enters and on ties the earlier candidate
is kept. -/
def pickLowest (cs : List Cand) : Option Cand :=
  cs.foldl (fun acc c =>
    match acc with
    | none => some c
    | some b => if c.score < b.score then some c else some b) none

/-- In-place update of the i-th element of a list, the effect of
indexing into the entry list and mutating one entry. -/
def modifyAt {α : Type} : List α → Nat → (α → α) → List α
  | [], _, _ => []
  | a :: l, 0, f => f a :: l
  | a :: l, i + 1, f => a :: modifyAt l i f

/-- Removal step of _remove_lowest_bullet (lines 507-514):
data[section][entry_idx]["bullets"].pop(bullet_idx). -/
def removeCand (d : NData) (c : Cand) : NData :=
  if c.isProj then
    { d with projects := (modifyAt d.projects c.entryIdx
        (fun p => { p with bullets := p.bullets.eraseIdx c.bulletIdx })) }
  else
    { d with experience := (modifyAt d.experience c.entryIdx
        (fun e => { e with bullets := e.bullets.eraseIdx c.bulletIdx })) }

/-- Embedding of OverflowManager._remove_lowest_bullet
(resume_layout_engine.py, lines 474-516): scan all experience bullets
then all project bullets keeping the first strictly-lowest score, pop
that bullet, and report whether one was removed (the mutation plus
boolean return is modelled as an Option result). -/
def remove_lowest_bullet (d : NData) : Option NData :=
  match pickLowest (candidates d) with
  | none => none
  | some c => some (removeCand d c)

/-- Spacing mode flag set by fit_to_one_page on exit
(lines 438, 445, 449): 'balanced' (the loose default used while the
loop renders) on a successful fit, 'compact' when bullets ran out or the
iteration cap tripped. -/
inductive SpacingMode where
  | balanced
  | compact
deriving DecidableEq, Repr

/-- Iteration structure of OverflowManager.fit_to_one_page
(resume_layout_engine.py, lines 417-450).  count_pages is the external
measurement (render_html + weasyprint + PyPDF2 page count,
lines 452-472); within the loop render_html always sees the 'balanced'
spacing default because normalize emits no _spacing_mode key and the
loop only sets it on exit, so the page count is a function of the
document data alone.  Each fuel unit is one loop iteration
(render-and-measure, then either return or remove one bullet); fuel 0 is
the max_iterations = 50 exit, which sets 'compact'. -/
def fitLoop (count_pages : NData → Nat) : Nat → NData → NData × SpacingMode
  | 0, d => (d, .compact)
  | fuel + 1, d =>
    if count_pages d ≤ 1 then (d, .balanced)
    else
      match remove_lowest_bullet d with
      | none => (d, .compact)
      | some d' => fitLoop count_pages fuel d'

/-- Embedding of OverflowManager.fit_to_one_page with the source's
max_iterations = 50 (line 424).  Returns the trimmed document together
with the _spacing_mode value written into it on exit. -/
def fit_to_one_page (count_pages : NData → Nat) (d : NData) : NData × SpacingMode :=
  fitLoop count_pages 50 d

/-- Total number of bullet ContentUnits of a document. -/
def totalBullets (d : NData) : Nat :=
  (d.experience.map (fun e => e.bullets.length)).sum
    + (d.projects.map (fun p => p.bullets.length)).sum

/-- Scores of all bullets in scan order. -/
def allScores (d : NData) : List ℚ := (candidates d).map (fun c => c.score)

/-- Hard fields of a normalized experience entry. -/
def hardExp (e : NExp) : String × String × String × String :=
  (e.title, e.company, e.location, e.date)

/-- Hard fields of a parsed experience entry. -/
def hardParsedExp (e : ParsedExp) : String × String × String × String :=
  (e.title, e.company, e.location, e.date)

/-- Hard fields of a normalized project entry. -/
def hardProj (p : NProj) : String × String × String :=
  (p.name, p.tech_stack, p.link)

/-- Hard fields of a parsed project entry. -/
def hardParsedProj (p : ParsedProj) : String × String × String :=
  (p.name, p.tech_stack, p.link)

end ResumeLayoutEngine

namespace LayoutEngine

/-- Embedding of the LayoutSettings dataclass
(backend/app/services/layout_engine/engine.py, lines 10-25) with its
default values. -/
structure LayoutSettings where
  page_width : ℚ := 8.5
  page_height : ℚ := 11.0
  margin_top : ℚ := 0.5
  margin_bottom : ℚ := 0.5
  margin_left : ℚ := 0.5
  margin_right : ℚ := 0.5
  font_name : String := "Helvetica"
  font_size : ℚ := 10
  line_height : ℚ := 1.2
  heading_size : ℚ := 12
  section_spacing : ℚ := 0.15
  bullet_indent : ℚ := 0.25
  paragraph_spacing : ℚ := 0.08
deriving DecidableEq, Repr

/-- Contact value accepted by LayoutEngine._format_contact
(engine.py lines 244-258): either a dict with the six known keys (an
absent or empty value is the falsy empty string) or a plain list of
strings. -/
inductive LContact where
  | dict (email phone location linkedin github website : String)
  | list (items : List String)
deriving DecidableEq, Repr

/-- Header dict of the resume data (engine.py lines 151-167). -/
structure RHeader where
  name : String
  contact : LContact
deriving DecidableEq, Repr

/-- One entry of a section: main_text lines and bullet strings
(engine.py lines 202-220). -/
structure REntry where
  main_text : List String
  bullets : List String
deriving DecidableEq, Repr

/-- One section: title and entries (engine.py lines 186-202). -/
structure RSection where
  title : String
  entries : List REntry
deriving DecidableEq, Repr

/-- Resume data consumed by LayoutEngine.layout_resume. -/
structure ResumeData where
  header : RHeader
  sections : List RSection
deriving DecidableEq, Repr

/-- Positioned element (engine.py lines 28-39). -/
structure LayoutElement where
  element_type : String
  text : String
  x : ℚ
  y : ℚ
  width : ℚ
  height : ℚ
  font_size : ℚ
  is_bold : Bool
  is_italic : Bool
deriving DecidableEq, Repr

/-- Result of layout_resume (engine.py lines 42-49). -/
structure LayoutResult where
  elements : List LayoutElement
  total_height : ℚ
  fits_on_page : Bool
  compression_level : Nat
  settings : LayoutSettings
deriving DecidableEq, Repr

/-- Embedding of LayoutEngine._format_contact (engine.py,
lines 244-258): collect the truthy values of the six known keys in their
fixed order (dict form) or the truthy items (list form) and join them
with the bullet separator. -/
def format_contact : LContact → String
  | .dict email phone location linkedin github website =>
      String.intercalate " • "
        ([email, phone, location, linkedin, github, website].filter (fun s => s != ""))
  | .list items => String.intercalate " • " (items.filter (fun s => s != ""))

/-- Python str.split() with no argument: maximal runs of
non-whitespace characters. -/
def pySplitAux : List Char → List Char → List String
  | [], acc => if acc.isEmpty then [] else [String.mk acc.reverse]
  | c :: cs, acc =>
    if c.isWhitespace then
      if acc.isEmpty then pySplitAux cs [] else String.mk acc.reverse :: pySplitAux cs []
    else pySplitAux cs (c :: acc)

/-- Python text.split() as used by
FontMetrics.calculate_line_breaks (font_metrics.py line 60). -/
def pySplit (s : String) : List String := pySplitAux s.data []

/-- Embedding of FontMetrics.calculate_height (font_metrics.py,
lines 104-109): num_lines * font_size * line_height_ratio / 72
inches. -/
def calculate_height (font_size : ℚ) (num_lines : Nat) (line_height_ratio : ℚ) : ℚ :=
  ((num_lines : ℚ) * (font_size * line_height_ratio)) / 72

/-- Greedy line-filling loop of FontMetrics.calculate_line_breaks
(font_metrics.py, lines 55-80), threading the accumulated lines, the
current line's words and the current width.  The mtw parameter is
FontMetrics.measure_text_width for the engine's font name and size: its
primary path queries reportlab's font tables (external data) with the
in-repo average-width fallback on exception, so it is passed as an
oracle. -/
def lineBreakLoop (mtw : String → ℚ) (max_width : ℚ) :
    List String → List String → List String → ℚ → List String
  | [], lines, current_line, _ =>
    if current_line.isEmpty then lines
    else lines ++ [String.intercalate " " current_line]
  | word :: ws, lines, current_line, current_width =>
    let word_width := mtw (word ++ " ")
    if current_width + word_width ≤ max_width then
      lineBreakLoop mtw max_width ws lines (current_line ++ [word]) (current_width + word_width)
    else
      if current_line.isEmpty then
        lineBreakLoop mtw max_width ws lines [word] word_width
      else
        lineBreakLoop mtw max_width ws
          (lines ++ [String.intercalate " " current_line]) [word] word_width

/-- Embedding of FontMetrics.calculate_line_breaks (font_metrics.py,
lines 55-80). -/
def calculate_line_breaks (mtw : String → ℚ) (text : String) (max_width : ℚ) : List String :=
  lineBreakLoop mtw max_width (pySplit text) [] [] 0

/-- Contact lines of _calculate_layout (engine.py lines 167-181): one
text element per wrapped line at font_size - 1. -/
def contactLineElems (s : LayoutSettings) (content_width : ℚ) :
    ℚ → List String → List LayoutElement × ℚ
  | y, [] => ([], y)
  | y, line :: rest =>
    let h := calculate_height s.font_size 1 s.line_height
    let el : LayoutElement :=
      ⟨"text", line, s.margin_left, y, content_width, h, s.font_size - 1, false, false⟩
    let res := contactLineElems s content_width (y + h) rest
    (el :: res.1, res.2)

/-- Main-text lines of one entry (engine.py lines 204-217). -/
def mainTextElems (s : LayoutSettings) (content_width : ℚ) :
    ℚ → List String → List LayoutElement × ℚ
  | y, [] => ([], y)
  | y, line :: rest =>
    let h := calculate_height s.font_size 1 s.line_height
    let el : LayoutElement :=
      ⟨"text", line, s.margin_left, y, content_width, h, s.font_size, true, false⟩
    let res := mainTextElems s content_width (y + h) rest
    (el :: res.1, res.2)

/-- Wrapped lines of one bullet (engine.py lines 225-236): the first
line is prefixed with the bullet glyph, continuation lines with two
spaces. -/
def bulletLineElems (s : LayoutSettings) (bullet_width : ℚ) :
    Bool → ℚ → List String → List LayoutElement × ℚ
  | _, y, [] => ([], y)
  | isFirst, y, line :: rest =>
    let h := calculate_height s.font_size 1 s.line_height
    let el : LayoutElement :=
      ⟨"bullet", (if isFirst then "• " else "  ") ++ line,
        s.margin_left + s.bullet_indent, y, bullet_width, h, s.font_size, false, false⟩
    let res := bulletLineElems s bullet_width false (y + h) rest
    (el :: res.1, res.2)

/-- Bullets of one entry (engine.py lines 220-236). -/
def bulletsElems (mtw : String → ℚ) (s : LayoutSettings) (content_width : ℚ) :
    ℚ → List String → List LayoutElement × ℚ
  | y, [] => ([], y)
  | y, bullet :: rest =>
    let bullet_width := content_width - s.bullet_indent
    let lines := calculate_line_breaks mtw bullet bullet_width
    let res := bulletLineElems s bullet_width true y lines
    let res' := bulletsElems mtw s content_width res.2 rest
    (res.1 ++ res'.1, res'.2)

/-- Entries of one section (engine.py lines 202-238): main text, then
bullets, then paragraph spacing. -/
def entriesElems (mtw : String → ℚ) (s : LayoutSettings) (content_width : ℚ) :
    ℚ → List REntry → List LayoutElement × ℚ
  | y, [] => ([], y)
  | y, entry :: rest =>
    let resMain := mainTextElems s content_width y entry.main_text
    let resBul := bulletsElems mtw s content_width resMain.2 entry.bullets
    let res' := entriesElems mtw s content_width (resBul.2 + s.paragraph_spacing) rest
    (resMain.1 ++ resBul.1 ++ res'.1, res'.2)

/-- Sections loop of _calculate_layout (engine.py lines 186-240): title
element plus 0.05, entries, then section spacing. -/
def sectionsElems (mtw : String → ℚ) (s : LayoutSettings) (content_width : ℚ) :
    ℚ → List RSection → List LayoutElement × ℚ
  | y, [] => ([], y)
  | y, sec :: rest =>
    let th := s.heading_size / 72
    let titleEl : LayoutElement :=
      ⟨"heading", sec.title, s.margin_left, y, content_width, th, s.heading_size, true, false⟩
    let resE := entriesElems mtw s content_width (y + th + 0.05) sec.entries
    let res' := sectionsElems mtw s content_width (resE.2 + s.section_spacing) rest
    (titleEl :: resE.1 ++ res'.1, res'.2)

/-- Embedding of LayoutEngine._calculate_layout (engine.py,
lines 132-242): header heading (skipped for a falsy name), wrapped
contact line (skipped when empty), section spacing, then all sections;
returns the element list and the final y, the total height.  The mtw
oracle is FontMetrics.measure_text_width keyed by font name and size
(reportlab-backed, hence external). -/
def calculate_layout (mtw : String → ℚ → String → ℚ) (s : LayoutSettings)
    (data : ResumeData) : List LayoutElement × ℚ :=
  let content_width := s.page_width - s.margin_left - s.margin_right
  let measure := mtw s.font_name s.font_size
  let y0 := s.margin_top
  let headerRes : List LayoutElement × ℚ :=
    if data.header.name != "" then
      let h := s.heading_size / 72
      ([⟨"heading", data.header.name, s.margin_left, y0, content_width, h,
          s.heading_size + 2, true, false⟩], y0 + h + 0.05)
    else ([], y0)
  let ci := format_contact data.header.contact
  let contactRes : List LayoutElement × ℚ :=
    if ci != "" then
      contactLineElems s content_width headerRes.2 (calculate_line_breaks measure ci content_width)
    else ([], headerRes.2)
  let secRes := sectionsElems measure s content_width (contactRes.2 + s.section_spacing) data.sections
  (headerRes.1 ++ contactRes.1 ++ secRes.1, secRes.2)

/-- Embedding of LayoutEngine._apply_compression (engine.py,
lines 100-130).  The method mutates self.settings cumulatively (the
base_settings local is dead code): each level overwrites its named
fields and leaves the rest as the previous level left them, which the
threading in the layout loop reproduces. -/
def apply_compression (level : Nat) (s : LayoutSettings) : LayoutSettings :=
  if level = 0 then s
  else if level = 1 then { s with line_height := 1.15 }
  else if level = 2 then
    { s with line_height := 1.1, section_spacing := 0.12, paragraph_spacing := 0.06 }
  else if level = 3 then
    { s with
      line_height := 1.1, section_spacing := 0.10, paragraph_spacing := 0.05,
      bullet_indent := 0.2 }
  else
    { s with
      font_size := 9.5, heading_size := 11, line_height := 1.1,
      section_spacing := 0.08, paragraph_spacing := 0.04, bullet_indent := 0.2 }

/-- Content area height compared against in layout_resume
(engine.py lines 73-79); compression never touches the page dimensions
or margins. -/
def content_area_height (s : LayoutSettings) : ℚ :=
  s.page_height - s.margin_top - s.margin_bottom

/-- Settings in effect at a given compression level, starting from the
engine's initial settings: the cumulative application of
_apply_compression for levels 0..k. -/
def settingsAt (s0 : LayoutSettings) : Nat → LayoutSettings
  | 0 => apply_compression 0 s0
  | k + 1 => apply_compression (k + 1) (settingsAt s0 k)

/-- Compression loop of LayoutEngine.layout_resume (engine.py,
lines 61-98): try levels k, k+1, ... while fuel remains, threading the
mutated settings; when the five levels are exhausted, recompute the
layout at the final settings and report fits_on_page = false at
compression_level 4. -/
def tryLevels (mtw : String → ℚ → String → ℚ) (data : ResumeData) :
    LayoutSettings → Nat → Nat → LayoutResult
  | s, _, 0 =>
    let res := calculate_layout mtw s data
    ⟨res.1, res.2, false, 4, s⟩
  | s, k, r + 1 =>
    let s' := apply_compression k s
    let res := calculate_layout mtw s' data
    if res.2 ≤ content_area_height s' then ⟨res.1, res.2, true, k, s'⟩
    else tryLevels mtw data s' (k + 1) r

/-- Embedding of LayoutEngine.layout_resume (engine.py, lines 61-98):
`for compression in range(5)` starting from the constructor's settings,
with the post-loop overflow result. -/
def layout_resume (mtw : String → ℚ → String → ℚ) (s0 : LayoutSettings)
    (data : ResumeData) : LayoutResult :=
  tryLevels mtw data s0 0 5

/-- The document fits the content area when measured at compression
level l (with the cumulative settings that level reaches). -/
def fitsAtLevel (mtw : String → ℚ → String → ℚ) (s0 : LayoutSettings)
    (data : ResumeData) (l : Nat) : Prop :=
  (calculate_layout mtw (settingsAt s0 l) data).2
    ≤ content_area_height (settingsAt s0 l)

end LayoutEngine

namespace SemanticMatcher

theorem length_assignRanks (k : Nat) (l : List SimResult) :
    (assignRanks k l).length = l.length := by
  induction l generalizing k with
  | nil => rfl
  | cons r rest ih => simp [assignRanks, ih]

theorem rank_assignRanks (l : List SimResult) (k i : Nat) (h : i < (assignRanks k l).length) :
    ((assignRanks k l).get ⟨i, h⟩).rank = k + i := by
  induction l generalizing k i with
  | nil => simp [assignRanks] at h
  | cons r rest ih =>
    cases i with
    | zero => simp [assignRanks]
    | succ j =>
      have hlen : (assignRanks k (r :: rest)).length = rest.length + 1 := by
        simp [assignRanks, length_assignRanks]
      have h' : j < (assignRanks (k + 1) rest).length := by
        rw [length_assignRanks]
        rw [hlen] at h
        omega
      have hget : (assignRanks k (r :: rest)).get ⟨j + 1, h⟩
          = (assignRanks (k + 1) rest).get ⟨j, h'⟩ := rfl
      rw [hget, ih (k + 1) j h']
      omega

theorem mem_assignRanks {b : SimResult} {k : Nat} {l : List SimResult}
    (hb : b ∈ assignRanks k l) :
    ∃ a ∈ l, b.bullet = a.bullet ∧ b.score = a.score ∧ b.original_index = a.original_index := by
  induction l generalizing k with
  | nil => simp [assignRanks] at hb
  | cons r rest ih =>
    rcases (by simpa [assignRanks] using hb : b = { r with rank := k } ∨ b ∈ assignRanks (k + 1) rest) with h | h
    · exact ⟨r, List.mem_cons_self _ _, by simp [h], by simp [h], by simp [h]⟩
    · obtain ⟨a, ha, h0, h1, h2⟩ := ih h
      exact ⟨a, List.mem_cons_of_mem _ ha, h0, h1, h2⟩

theorem sorted_assignRanks {l : List SimResult} (k : Nat) (hs : List.Sorted simLex l) :
    List.Sorted simLex (assignRanks k l) := by
  induction l generalizing k with
  | nil => simp [assignRanks, List.Sorted]
  | cons r rest ih =>
    rw [List.sorted_cons] at hs
    refine List.sorted_cons.2 ⟨?_, ih (k + 1) hs.2⟩
    intro b hb
    obtain ⟨a, ha, h0, h1, h2⟩ := mem_assignRanks hb
    have := hs.1 a ha
    simpa [simLex, h1, h2] using this

theorem idx_ge_buildResults {r : SimResult} {i : Nat} {l : List (String × ℚ)}
    (hr : r ∈ buildResults i l) : i ≤ r.original_index := by
  induction l generalizing i with
  | nil => simp [buildResults] at hr
  | cons p rest ih =>
    rcases (by simpa [buildResults] using hr : r = ⟨p.1, i, p.2, 0⟩ ∨ r ∈ buildResults (i + 1) rest) with h | h
    · simp [h]
    · exact Nat.le_of_succ_le (ih h)

theorem pairwise_idx_buildResults (i : Nat) (l : List (String × ℚ)) :
    List.Pairwise (fun a b => a.original_index < b.original_index) (buildResults i l) := by
  induction l generalizing i with
  | nil => simp [buildResults]
  | cons p rest ih =>
    refine List.Pairwise.cons ?_ (ih (i + 1))
    intro b hb
    exact Nat.lt_of_succ_le (idx_ge_buildResults hb)

theorem sorted_orderedInsert_lex (x : SimResult) (l : List SimResult)
    (hs : List.Sorted simLex l) (hidx : ∀ b ∈ l, x.original_index < b.original_index) :
    List.Sorted simLex (List.orderedInsert simSortRel x l) := by
  induction l with
  | nil => simp [List.orderedInsert, List.Sorted]
  | cons b l' ih =>
    rw [List.sorted_cons] at hs
    by_cases h : simSortRel x b
    · rw [List.orderedInsert, if_pos h]
      refine List.sorted_cons.2 ⟨?_, List.sorted_cons.2 hs⟩
      intro c hc
      rcases List.mem_cons.1 hc with hcb | hcl
      · subst hcb
        rcases lt_or_eq_of_le h with hlt | heq
        · exact Or.inl hlt
        · exact Or.inr ⟨heq.symm, hidx c (List.mem_cons_self _ _)⟩
      · have hbc := hs.1 c hcl
        rcases hbc with hbc | hbc
        · exact Or.inl (lt_of_lt_of_le hbc h)
        · rcases lt_or_eq_of_le h with hlt | heq
          · exact Or.inl (hbc.1 ▸ hlt)
          · exact Or.inr ⟨by rw [← heq, hbc.1], hidx c (List.mem_cons_of_mem _ hcl)⟩
    · rw [List.orderedInsert, if_neg h]
      have hxb : b.score > x.score := lt_of_not_le h
      refine List.sorted_cons.2 ⟨?_, ih hs.2 (fun c hc => hidx c (List.mem_cons_of_mem _ hc))⟩
      intro c hc
      rcases (List.mem_orderedInsert simSortRel).1 hc with hcx | hcl
      · subst hcx
        exact Or.inl hxb
      · exact hs.1 c hcl

theorem sorted_insertionSort_lex (l : List SimResult)
    (hidx : List.Pairwise (fun a b => a.original_index < b.original_index) l) :
    List.Sorted simLex (List.insertionSort simSortRel l) := by
  induction l with
  | nil => simp [List.insertionSort, List.Sorted]
  | cons x xs ih =>
    rw [List.pairwise_cons] at hidx
    rw [List.insertionSort]
    refine sorted_orderedInsert_lex x _ (ih hidx.2) ?_
    intro b hb
    have hb' : b ∈ xs := (List.perm_insertionSort simSortRel xs).mem_iff.1 hb
    exact hidx.1 b hb'

/-- Claim C5: for every list of units and every context, the output of
RelevanceScorer.compute_similarity is sorted in descending order of
score, any two units with equal score appear in ascending order of their
original index (first-seen wins the better rank), and ranks are assigned
1..n in that order. -/
theorem compute_similarity_sorted_ranked (sims : List String → String → List ℚ)
    (resume_bullets : List String) (job_description : String) :
    List.Sorted simLex (compute_similarity sims resume_bullets job_description) ∧
    ∀ i (h : i < (compute_similarity sims resume_bullets job_description).length),
      ((compute_similarity sims resume_bullets job_description).get ⟨i, h⟩).rank = i + 1 := by
  unfold compute_similarity
  by_cases he : resume_bullets.isEmpty
  · simp [he, List.Sorted]
  · rw [if_neg he]
    constructor
    · exact sorted_assignRanks 1
        (sorted_insertionSort_lex _ (pairwise_idx_buildResults 0 _))
    · intro i h
      rw [rank_assignRanks _ 1 i h, Nat.add_comm]

end SemanticMatcher

namespace SemanticMatcher

theorem mem_buildResults {r : SimResult} {i : Nat} {l : List (String × ℚ)}
    (hr : r ∈ buildResults i l) : (r.bullet, r.score) ∈ l := by
  induction l generalizing i with
  | nil => simp [buildResults] at hr
  | cons p rest ih =>
    rcases (by simpa [buildResults] using hr : r = ⟨p.1, i, p.2, 0⟩ ∨ r ∈ buildResults (i + 1) rest) with h | h
    · subst h
      exact List.mem_cons_self _ _
    · exact List.mem_cons_of_mem _ (ih h)

theorem score_mem_zip {sims : List String → String → List ℚ}
    {bullets : List String} {ctx : String} {r : SimResult}
    (hr : r ∈ compute_similarity sims bullets ctx) :
    (r.bullet, r.score) ∈ bullets.zip (sims bullets ctx) := by
  unfold compute_similarity at hr
  by_cases he : bullets.isEmpty
  · simp [he] at hr
  · rw [if_neg he] at hr
    obtain ⟨a, ha, h0, h1, h2⟩ := mem_assignRanks hr
    have ha' : a ∈ buildResults 0 (bullets.zip (sims bullets ctx)) :=
      (List.perm_insertionSort simSortRel _).mem_iff.1 ha
    have := mem_buildResults ha'
    rwa [h0, h1]

/-- Claim C6 counterexample: with the TF-IDF fallback backend, an empty
context string vectorizes to the zero vector, for which sklearn's
cosine_similarity returns 0; compute_similarity then returns that raw 0
as the unit's score, not 0.5, and its result records (bullet,
original_index, score, rank) carry no lowConfidence field at all.  The
"no skills detected" default of 50 exists only in
optimizer.calculate_overall_score. -/
theorem empty_context_counterexample :
    SemanticMatcher.compute_similarity (fun _ _ => [0]) (["built api"]) ("") =
      [⟨("built api"), 0, 0, 1⟩] ∧ (0 : ℚ) ≠ 1/2 := by
  constructor
  · rfl
  · norm_num

/-- Claim C6 (amended): compute_similarity has no special case for an
empty context — every returned record's (bullet, score) pair is drawn
unmodified from zipping the input bullets with the backend similarity
values, and its records carry no lowConfidence flag; the 50-point
default exists only in calculate_overall_score, which returns 50.0 when
the job-skill set is empty. -/
theorem empty_context_amended (resume_text : String) (jk : Optimizer.JobKeywords)
    (hsk : jk.skills = [])
    (sims : List String → String → List ℚ) (bullets : List String) (r : SimResult)
    (hr : r ∈ compute_similarity sims bullets ("")) :
    Optimizer.calculate_overall_score resume_text jk = 50 ∧
    (r.bullet, r.score) ∈ bullets.zip (sims bullets ("")) := by
  constructor
  · unfold Optimizer.calculate_overall_score
    simp [hsk]
  · exact score_mem_zip hr

theorem empty_context_amended_witness :
    (⟨"a", 0, 1/3, 1⟩ : SimResult) ∈
        compute_similarity (fun _ _ => [1/3]) (["a"]) ("") ∧
    (Optimizer.calculate_overall_score ("resume text") ⟨[], ["python"]⟩ = 50 ∧
      ((⟨"a", 0, 1/3, 1⟩ : SimResult).bullet, (⟨"a", 0, 1/3, 1⟩ : SimResult).score) ∈
        (["a"] : List String).zip ((fun _ _ => [(1/3 : ℚ)]) ["a"] "")) := by
  have hc : compute_similarity (fun _ _ => [(1/3 : ℚ)]) (["a"]) ("")
      = [⟨"a", 0, 1/3, 1⟩] := rfl
  refine ⟨?_, ?_⟩
  · rw [hc]
    exact List.mem_singleton.2 rfl
  · exact empty_context_amended ("resume text") ⟨[], ["python"]⟩ rfl
      (fun _ _ => [1/3]) (["a"]) ⟨"a", 0, 1/3, 1⟩
      (by rw [hc]; exact List.mem_singleton.2 rfl)

/-- Claim C7 counterexample: sklearn's cosine_similarity divides the dot
product by the Euclidean norms; the vectors (3/5, 4/5) and
(-3/5, -4/5) have norm 1, so their cosine similarity is the dot product
-1.  compute_similarity (semantic_matcher.py lines 142-152) passes the
similarity through with only a float() conversion — no clamping of
negative values and no NaN handling — so a returned score of -1 lies
outside [0, 1], refuting the claim. -/
theorem score_range_counterexample :
    dotProduct [3/5, 4/5] [-(3/5), -(4/5)] = -1 ∧
    SemanticMatcher.compute_similarity
        (fun _ _ => [dotProduct [3/5, 4/5] [-(3/5), -(4/5)]]) (["x"]) ("jd")
      = [⟨("x"), 0, -1, 1⟩] ∧
    ¬ (0 : ℚ) ≤ -1 := by
  refine ⟨by norm_num [dotProduct], ?_, by norm_num⟩
  have h : dotProduct [3/5, 4/5] [-(3/5), -(4/5)] = -1 := by norm_num [dotProduct]
  rw [show (fun (_ : List String) (_ : String) => [dotProduct [3/5, 4/5] [-(3/5), -(4/5)]])
        = (fun _ _ => [(-1 : ℚ)]) by funext a b; rw [h]]
  rfl

/-- Claim C7 (amended): compute_similarity returns the backend's raw
similarity values without clamping: whatever interval bounds the backend
output bounds every returned score.  For cosine similarity of embedding
vectors that interval is [-1, 1], not [0, 1]; no NaN clamp exists in the
source. -/
theorem score_passthrough_amended (sims : List String → String → List ℚ)
    (bullets : List String) (ctx : String) (lo hi : ℚ)
    (hband : ∀ s ∈ sims bullets ctx, lo ≤ s ∧ s ≤ hi) :
    ∀ r ∈ compute_similarity sims bullets ctx, lo ≤ r.score ∧ r.score ≤ hi := by
  intro r hr
  have hz := score_mem_zip hr
  have hs : r.score ∈ sims bullets ctx := (List.of_mem_zip hz).2
  exact hband r.score hs

theorem score_passthrough_amended_witness :
    (∀ s ∈ (fun (_ : List String) (_ : String) => [(-1/2 : ℚ)]) ["x"] "jd",
        (-1 : ℚ) ≤ s ∧ s ≤ 1) ∧
    ∀ r ∈ compute_similarity (fun _ _ => [(-1/2 : ℚ)]) (["x"]) ("jd"),
      (-1 : ℚ) ≤ r.score ∧ r.score ≤ 1 := by
  constructor
  · intro s hs
    rcases (by simpa using hs : s = -1/2) with h
    norm_num [h]
  · exact score_passthrough_amended (fun _ _ => [(-1/2 : ℚ)]) (["x"]) ("jd") (-1) 1
      (by intro s hs; rcases (by simpa using hs : s = -1/2) with h; norm_num [h])

end SemanticMatcher

namespace BulletClassifier

theorem foldl_best_ge (f : BulletCategory → Nat) (l : List BulletCategory) (b : BulletCategory) :
    f b ≤ f (l.foldl (fun best c => if f c > f best then c else best) b) ∧
    ∀ c ∈ l, f c ≤ f (l.foldl (fun best c => if f c > f best then c else best) b) := by
  induction l generalizing b with
  | nil => exact ⟨le_refl _, by simp⟩
  | cons x xs ih =>
    have hfold : (x :: xs).foldl (fun best c => if f c > f best then c else best) b
        = xs.foldl (fun best c => if f c > f best then c else best)
            (if f x > f b then x else b) := rfl
    by_cases h : f x > f b
    · rw [hfold, if_pos h]
      refine ⟨le_trans (le_of_lt h) (ih x).1, ?_⟩
      intro c hc
      rcases List.mem_cons.1 hc with rfl | hc'
      · exact (ih c).1
      · exact (ih x).2 c hc'
    · rw [hfold, if_neg h]
      refine ⟨(ih b).1, ?_⟩
      intro c hc
      rcases List.mem_cons.1 hc with rfl | hc'
      · exact le_trans (Nat.le_of_not_lt h) (ih b).1
      · exact (ih b).2 c hc'

theorem catScore_education (reSearch : String → String → Bool) (s : String) :
    catScore reSearch s .education = 0 := by
  simp [catScore, keywordsFor, patternsFor]

/-- Claim C10: classify_bullet never returns the EDUCATION category:
CATEGORY_INDICATORS has no EDUCATION entry, so its score is always 0;
a positive maximum is attained by some other category (and first-max
argmax selection cannot land on a zero-scored key), and the all-zero
default is RESPONSIBILITY. -/
theorem classify_never_education (reSearch : String → String → Bool) (bullet : String) :
    classify_bullet reSearch bullet ≠ BulletCategory.education := by
  unfold classify_bullet
  by_cases h : 0 < maxScoreVal (catScore reSearch (Optimizer.pyLower bullet))
  · rw [if_pos h]
    intro hedu
    set f := catScore reSearch (Optimizer.pyLower bullet) with hf
    have hge := foldl_best_ge f
      [.leadership, .technical, .project, .responsibility, .education] .achievement
    have hmax : maxScoreVal f ≤ f (argmaxCat f) := by
      have ha := hge.1
      have hl := hge.2 .leadership (by simp)
      have ht := hge.2 .technical (by simp)
      have hp := hge.2 .project (by simp)
      have hr := hge.2 .responsibility (by simp)
      have he := hge.2 .education (by simp)
      simp only [maxScoreVal, allCategories, List.map, List.foldr]
      unfold argmaxCat
      exact Nat.max_le.2 ⟨ha, Nat.max_le.2 ⟨hl, Nat.max_le.2 ⟨ht, Nat.max_le.2 ⟨hp,
        Nat.max_le.2 ⟨hr, Nat.max_le.2 ⟨he, Nat.zero_le _⟩⟩⟩⟩⟩⟩
    rw [hedu] at hmax
    have hz : f .education = 0 := catScore_education reSearch bullet.toLower
    rw [hz] at hmax
    omega
  · rw [if_neg h]
    decide

theorem mem_classify_bullets {reSearch : String → String → Bool}
    {bullets : List String} {cat : BulletCategory} {r : CB}
    (hr : r ∈ classify_bullets reSearch bullets cat) : r.category = cat := by
  have := (List.mem_filter.1 hr).2
  simpa using this

theorem filter_take_bucket_eq (reSearch : String → String → Bool)
    (bullets : List String) (cap : Nat) (cat' cat : BulletCategory) :
    ((classify_bullets reSearch bullets cat').take (targetCount cap cat')).filter
        (fun r => r.category == cat)
      = if cat' = cat then (classify_bullets reSearch bullets cat).take (targetCount cap cat)
        else [] := by
  by_cases h : cat' = cat
  · subst h
    rw [if_pos rfl]
    apply List.filter_eq_self.2
    intro r hr
    have hr' : r ∈ classify_bullets reSearch bullets cat' := List.mem_of_mem_take hr
    simp [mem_classify_bullets hr']
  · rw [if_neg h]
    apply List.filter_eq_nil_iff.2
    intro r hr
    have hr' := List.mem_of_mem_take hr
    simp [mem_classify_bullets hr', h]

/-- Claim C8 counterexample: both bullets are classified ACHIEVEMENT
("won" and "grew" are achievement keywords; the regex oracle reports no
pattern matches, faithfully, since neither text contains digits, %, $ or
the other pattern material).  Under the exhibited scoring, which rates
"grew y" (9/10) above "won x" (1/10), the claim's highest-scored-first
selection would return "grew y"; balance_categories instead returns
"won x", the record earliest in classification order, because the
classify_bullets records carry no score field and balance_categories
consults none. -/
theorem balance_ignores_scores_counterexample :
    (fun b : String => if b == "grew y" then (9 : ℚ)/10 else 1/10) ("won x")
        < (fun b : String => if b == "grew y" then (9 : ℚ)/10 else 1/10) ("grew y") ∧
    balance_categories (classify_bullets (fun _ _ => false) ["won x", "grew y"]) 1
      = ["won x"] := by
  constructor
  · show (if (("won x" : String) == "grew y") = true then (9 : ℚ)/10 else 1/10) < 9/10
    rw [if_neg (by decide)]
    norm_num
  · have ht : ∀ cat, targetCount 1 cat = 0 := by
      intro cat
      cases cat <;> norm_num [targetCount, target_distribution]
    simp only [balance_categories, quotaSelected, priority_order, ht,
      List.take_zero, List.flatMap_cons, List.flatMap_nil, List.append_nil]
    rfl

/-- Claim C8 (amended): for every classified unit list and cap,
balance_categories returns at most cap units, and the quota phase takes
per category exactly the first min(target, available) records of that
category's bucket — at most floor(cap * target-fraction) units, drawn
in classification (ascending original index) order, a bucket front
segment — not the highest-scored first: the classified records carry no
scores and none are consulted. -/
theorem balance_categories_amended (reSearch : String → String → Bool)
    (bullets : List String) (cap : Nat) :
    (balance_categories (classify_bullets reSearch bullets) cap).length ≤ cap ∧
    (∀ cat, (quotaSelected (classify_bullets reSearch bullets) cap).filter
          (fun r => r.category == cat)
        = (classify_bullets reSearch bullets cat).take (targetCount cap cat)) ∧
    (∀ cat, (classify_bullets reSearch bullets cat).take (targetCount cap cat)
        <+: classify_bullets reSearch bullets cat) := by
  refine ⟨?_, ?_, fun cat => List.take_prefix _ _⟩
  · simp only [balance_categories, List.length_map, List.length_take]
    exact min_le_left _ _
  · intro cat
    rw [quotaSelected, priority_order]
    simp only [List.flatMap_cons, List.flatMap_nil, List.append_nil, List.filter_append]
    rw [filter_take_bucket_eq, filter_take_bucket_eq, filter_take_bucket_eq,
      filter_take_bucket_eq, filter_take_bucket_eq, filter_take_bucket_eq]
    cases cat <;> simp

end BulletClassifier

namespace ResumeLayoutEngine

theorem map_modifyAt {α β : Type} (g : α → β) (f : α → α) (h : ∀ a, g (f a) = g a) :
    ∀ (l : List α) (i : Nat), (modifyAt l i f).map g = l.map g := by
  intro l
  induction l with
  | nil => intro i; rfl
  | cons a l ih =>
    intro i
    cases i with
    | zero => simp [modifyAt, h]
    | succ j => simp only [modifyAt, List.map]; rw [ih j]

theorem removeCand_hard (d : NData) (c : Cand) :
    (removeCand d c).experience.map hardExp = d.experience.map hardExp ∧
    (removeCand d c).projects.map hardProj = d.projects.map hardProj ∧
    (removeCand d c).name = d.name ∧
    (removeCand d c).contact = d.contact ∧
    (removeCand d c).education = d.education ∧
    (removeCand d c).skills = d.skills := by
  unfold removeCand
  by_cases h : c.isProj = true
  · rw [if_pos h]
    exact ⟨rfl,
      map_modifyAt hardProj
        (fun p => { p with bullets := p.bullets.eraseIdx c.bulletIdx })
        (fun p => rfl) d.projects c.entryIdx,
      rfl, rfl, rfl, rfl⟩
  · rw [if_neg h]
    exact ⟨map_modifyAt hardExp
        (fun e => { e with bullets := e.bullets.eraseIdx c.bulletIdx })
        (fun e => rfl) d.experience c.entryIdx,
      rfl, rfl, rfl, rfl, rfl⟩

theorem remove_lowest_hard {d d' : NData} (h : remove_lowest_bullet d = some d') :
    d'.experience.map hardExp = d.experience.map hardExp ∧
    d'.projects.map hardProj = d.projects.map hardProj ∧
    d'.name = d.name ∧ d'.contact = d.contact ∧
    d'.education = d.education ∧ d'.skills = d.skills := by
  unfold remove_lowest_bullet at h
  cases hp : pickLowest (candidates d) with
  | none => rw [hp] at h; exact absurd h (by simp)
  | some c =>
    rw [hp] at h
    have hd : d' = removeCand d c := by
      have := Option.some.inj h
      exact this.symm
    rw [hd]
    exact removeCand_hard d c

theorem fitLoop_hard (cp : NData → Nat) :
    ∀ (fuel : Nat) (d : NData),
    (fitLoop cp fuel d).1.experience.map hardExp = d.experience.map hardExp ∧
    (fitLoop cp fuel d).1.projects.map hardProj = d.projects.map hardProj ∧
    (fitLoop cp fuel d).1.name = d.name ∧
    (fitLoop cp fuel d).1.contact = d.contact ∧
    (fitLoop cp fuel d).1.education = d.education ∧
    (fitLoop cp fuel d).1.skills = d.skills := by
  intro fuel
  induction fuel with
  | zero => intro d; exact ⟨rfl, rfl, rfl, rfl, rfl, rfl⟩
  | succ n ih =>
    intro d
    simp only [fitLoop]
    by_cases h : cp d ≤ 1
    · rw [if_pos h]
      exact ⟨rfl, rfl, rfl, rfl, rfl, rfl⟩
    · rw [if_neg h]
      cases hr : remove_lowest_bullet d with
      | none => exact ⟨rfl, rfl, rfl, rfl, rfl, rfl⟩
      | some d' =>
        have hstep := remove_lowest_hard hr
        have hih := ih d'
        exact ⟨hih.1.trans hstep.1, hih.2.1.trans hstep.2.1,
          hih.2.2.1.trans hstep.2.2.1, hih.2.2.2.1.trans hstep.2.2.2.1,
          hih.2.2.2.2.1.trans hstep.2.2.2.2.1, hih.2.2.2.2.2.trans hstep.2.2.2.2.2⟩

/-- Claim C1: the fitting pipeline (normalize then fit_to_one_page)
leaves every HardField byte-identical to the input document: experience
entries keep title/company/location/date in order, project entries keep
name/tech_stack/link in order, education, header name, contact and
skills pass through unchanged — only bullets can disappear. -/
theorem hard_fields_byte_identical (count_pages : NData → Nat)
    (parsed : ParsedResume) (semantic_scores : List (String × ℚ)) :
    (fit_to_one_page count_pages (normalize parsed semantic_scores)).1.experience.map hardExp
        = parsed.experience.map hardParsedExp ∧
    (fit_to_one_page count_pages (normalize parsed semantic_scores)).1.projects.map hardProj
        = parsed.projects.map hardParsedProj ∧
    (fit_to_one_page count_pages (normalize parsed semantic_scores)).1.education
        = parsed.education ∧
    (fit_to_one_page count_pages (normalize parsed semantic_scores)).1.name
        = parsed.contact_info.name ∧
    (fit_to_one_page count_pages (normalize parsed semantic_scores)).1.contact
        = parsed.contact_info ∧
    (fit_to_one_page count_pages (normalize parsed semantic_scores)).1.skills
        = parsed.skills := by
  have hfit := fitLoop_hard count_pages 50 (normalize parsed semantic_scores)
  have hne : (normalize parsed semantic_scores).experience.map hardExp
      = parsed.experience.map hardParsedExp := by
    simp only [normalize, List.map_map]
    rfl
  have hnp : (normalize parsed semantic_scores).projects.map hardProj
      = parsed.projects.map hardParsedProj := by
    simp only [normalize, List.map_map]
    rfl
  exact ⟨hfit.1.trans hne, hfit.2.1.trans hnp, hfit.2.2.2.2.1, hfit.2.2.1,
    hfit.2.2.2.1, hfit.2.2.2.2.2⟩

theorem forall₂_le_refl (l : List Nat) : List.Forall₂ (· ≤ ·) l l :=
  List.forall₂_same.2 (fun x _ => le_refl x)

theorem forall₂_le_trans : ∀ {a b c : List Nat},
    List.Forall₂ (· ≤ ·) a b → List.Forall₂ (· ≤ ·) b c → List.Forall₂ (· ≤ ·) a c := by
  intro a b c hab
  induction hab generalizing c with
  | nil =>
    intro hbc
    cases hbc
    exact List.Forall₂.nil
  | cons h t ih =>
    intro hbc
    cases hbc with
    | cons h' t' => exact List.Forall₂.cons (le_trans h h') (ih t')

theorem forall₂_map_modifyAt_le {α : Type} (g : α → Nat) (f : α → α)
    (h : ∀ a, g (f a) ≤ g a) :
    ∀ (l : List α) (i : Nat), List.Forall₂ (· ≤ ·) ((modifyAt l i f).map g) (l.map g) := by
  intro l
  induction l with
  | nil => intro i; exact List.Forall₂.nil
  | cons a l ih =>
    intro i
    cases i with
    | zero => exact List.Forall₂.cons (h a) (forall₂_le_refl _)
    | succ j => exact List.Forall₂.cons (le_refl _) (ih j)

theorem length_eraseIdx_le {α : Type} (l : List α) (i : Nat) :
    (l.eraseIdx i).length ≤ l.length := by
  rw [List.length_eraseIdx]
  split <;> omega

theorem removeCand_len (d : NData) (c : Cand) :
    List.Forall₂ (· ≤ ·) ((removeCand d c).experience.map (fun e => e.bullets.length))
      (d.experience.map (fun e => e.bullets.length)) ∧
    List.Forall₂ (· ≤ ·) ((removeCand d c).projects.map (fun p => p.bullets.length))
      (d.projects.map (fun p => p.bullets.length)) := by
  unfold removeCand
  by_cases h : c.isProj = true
  · rw [if_pos h]
    exact ⟨forall₂_le_refl _,
      forall₂_map_modifyAt_le (fun p => p.bullets.length)
        (fun p => { p with bullets := p.bullets.eraseIdx c.bulletIdx })
        (fun p => length_eraseIdx_le _ _) d.projects c.entryIdx⟩
  · rw [if_neg h]
    exact ⟨forall₂_map_modifyAt_le (fun e => e.bullets.length)
        (fun e => { e with bullets := e.bullets.eraseIdx c.bulletIdx })
        (fun e => length_eraseIdx_le _ _) d.experience c.entryIdx,
      forall₂_le_refl _⟩

theorem remove_lowest_len {d d' : NData} (h : remove_lowest_bullet d = some d') :
    List.Forall₂ (· ≤ ·) (d'.experience.map (fun e => e.bullets.length))
      (d.experience.map (fun e => e.bullets.length)) ∧
    List.Forall₂ (· ≤ ·) (d'.projects.map (fun p => p.bullets.length))
      (d.projects.map (fun p => p.bullets.length)) := by
  unfold remove_lowest_bullet at h
  cases hp : pickLowest (candidates d) with
  | none => rw [hp] at h; exact absurd h (by simp)
  | some c =>
    rw [hp] at h
    have hd : d' = removeCand d c := (Option.some.inj h).symm
    rw [hd]
    exact removeCand_len d c

theorem fitLoop_len (cp : NData → Nat) :
    ∀ (fuel : Nat) (d : NData),
    List.Forall₂ (· ≤ ·) ((fitLoop cp fuel d).1.experience.map (fun e => e.bullets.length))
      (d.experience.map (fun e => e.bullets.length)) ∧
    List.Forall₂ (· ≤ ·) ((fitLoop cp fuel d).1.projects.map (fun p => p.bullets.length))
      (d.projects.map (fun p => p.bullets.length)) := by
  intro fuel
  induction fuel with
  | zero => intro d; exact ⟨forall₂_le_refl _, forall₂_le_refl _⟩
  | succ n ih =>
    intro d
    simp only [fitLoop]
    by_cases h : cp d ≤ 1
    · rw [if_pos h]
      exact ⟨forall₂_le_refl _, forall₂_le_refl _⟩
    · rw [if_neg h]
      cases hr : remove_lowest_bullet d with
      | none => exact ⟨forall₂_le_refl _, forall₂_le_refl _⟩
      | some d' =>
        have hstep := remove_lowest_len hr
        have hih := ih d'
        exact ⟨forall₂_le_trans hih.1 hstep.1, forall₂_le_trans hih.2 hstep.2⟩

/-- Claim C2: after the fitting pipeline every experience and project
entry has at most as many bullet ContentUnits as the corresponding
entry of the input document — normalization preserves each entry's
bullet count exactly (score merge plus a permutation sort) and the fit
loop only ever removes bullets, never creates one. -/
theorem unit_count_monotone (count_pages : NData → Nat)
    (parsed : ParsedResume) (semantic_scores : List (String × ℚ)) :
    List.Forall₂ (· ≤ ·)
      ((fit_to_one_page count_pages (normalize parsed semantic_scores)).1.experience.map
        (fun e => e.bullets.length))
      (parsed.experience.map (fun e => e.bullets.length)) ∧
    List.Forall₂ (· ≤ ·)
      ((fit_to_one_page count_pages (normalize parsed semantic_scores)).1.projects.map
        (fun p => p.bullets.length))
      (parsed.projects.map (fun p => p.bullets.length)) := by
  have hfit := fitLoop_len count_pages 50 (normalize parsed semantic_scores)
  have hne : (normalize parsed semantic_scores).experience.map (fun e => e.bullets.length)
      = parsed.experience.map (fun e => e.bullets.length) := by
    simp only [normalize, List.map_map]
    apply List.map_congr_left
    intro e he
    simp only [Function.comp, normalizeExp, sortBullets]
    rw [(List.perm_insertionSort bulletSortRel _).length_eq, List.length_map]
  have hnp : (normalize parsed semantic_scores).projects.map (fun p => p.bullets.length)
      = parsed.projects.map (fun p => p.bullets.length) := by
    simp only [normalize, List.map_map]
    apply List.map_congr_left
    intro p hp
    simp only [Function.comp, normalizeProj, sortBullets]
    rw [(List.perm_insertionSort bulletSortRel _).length_eq, List.length_map]
  constructor
  · rw [← hne]
    exact hfit.1
  · rw [← hnp]
    exact hfit.2

end ResumeLayoutEngine

namespace ResumeLayoutEngine

/-- Folding step of the lowest-score scan, named for the proofs; the
fold in pickLowest is definitionally this step. -/
def pickStep (acc : Option Cand) (c : Cand) : Option Cand :=
  match acc with
  | none => some c
  | some b => if c.score < b.score then some c else some b

theorem pickLowest_eq (cs : List Cand) : pickLowest cs = cs.foldl pickStep none := rfl

theorem pickAux (xs : List Cand) : ∀ (b : Cand),
    ∃ c, List.foldl pickStep (some b) xs = some c ∧
      (∀ x ∈ xs, c.score ≤ x.score) ∧ c.score ≤ b.score ∧
      (c = b ∨ (c.score < b.score ∧
        ∃ pre post, xs = pre ++ c :: post ∧ ∀ p ∈ pre, c.score < p.score)) := by
  induction xs with
  | nil =>
    intro b
    exact ⟨b, rfl, by simp, le_refl _, Or.inl rfl⟩
  | cons x xs ih =>
    intro b
    by_cases hx : x.score < b.score
    · obtain ⟨c, hc, hall, hcb, hcase⟩ := ih x
      have hstep : List.foldl pickStep (some b) (x :: xs) = List.foldl pickStep (some x) xs := by
        simp only [List.foldl, pickStep, if_pos hx]
      refine ⟨c, hstep.trans hc, ?_, le_trans hcb (le_of_lt hx), ?_⟩
      · intro y hy
        rcases List.mem_cons.1 hy with rfl | hy'
        · exact hcb
        · exact hall y hy'
      · rcases hcase with rfl | ⟨hlt, pre, post, heq, hpre⟩
        · exact Or.inr ⟨hx, [], xs, rfl, by simp⟩
        · refine Or.inr ⟨lt_trans hlt hx, x :: pre, post, by rw [heq, List.cons_append], ?_⟩
          intro p hp
          rcases List.mem_cons.1 hp with rfl | hp'
          · exact hlt
          · exact hpre p hp'
    · obtain ⟨c, hc, hall, hcb, hcase⟩ := ih b
      have hstep : List.foldl pickStep (some b) (x :: xs) = List.foldl pickStep (some b) xs := by
        simp only [List.foldl, pickStep, if_neg hx]
      have hbx : b.score ≤ x.score := le_of_not_lt hx
      refine ⟨c, hstep.trans hc, ?_, hcb, ?_⟩
      · intro y hy
        rcases List.mem_cons.1 hy with rfl | hy'
        · exact le_trans hcb hbx
        · exact hall y hy'
      · rcases hcase with rfl | ⟨hlt, pre, post, heq, hpre⟩
        · exact Or.inl rfl
        · refine Or.inr ⟨hlt, x :: pre, post, by rw [heq, List.cons_append], ?_⟩
          intro p hp
          rcases List.mem_cons.1 hp with rfl | hp'
          · exact lt_of_lt_of_le hlt hbx
          · exact hpre p hp'

theorem pickLowest_spec (cs : List Cand) (c : Cand) (h : pickLowest cs = some c) :
    (∀ x ∈ cs, c.score ≤ x.score) ∧
    ∃ pre post, cs = pre ++ c :: post ∧ ∀ p ∈ pre, c.score < p.score := by
  cases cs with
  | nil => exact absurd h (by simp [pickLowest])
  | cons y ys =>
    have h' : List.foldl pickStep (some y) ys = some c := by
      rw [pickLowest_eq] at h
      simpa [List.foldl, pickStep] using h
    obtain ⟨c', hc', hall, hcb, hcase⟩ := pickAux ys y
    have hcc : c' = c := Option.some.inj (hc'.symm.trans h')
    subst hcc
    constructor
    · intro x hx
      rcases List.mem_cons.1 hx with rfl | hx'
      · exact hcb
      · exact hall x hx'
    · rcases hcase with rfl | ⟨hlt, pre, post, heq, hpre⟩
      · exact ⟨[], ys, rfl, by simp⟩
      · refine ⟨y :: pre, post, by rw [heq, List.cons_append], ?_⟩
        intro p hp
        rcases List.mem_cons.1 hp with rfl | hp'
        · exact hlt
        · exact hpre p hp'

theorem mem_bulletCands : ∀ (bs : List NBullet) (ip : Bool) (ei k : Nat) (c : Cand),
    c ∈ bulletCands ip ei k bs →
    c.isProj = ip ∧ c.entryIdx = ei ∧ k ≤ c.bulletIdx ∧ c.bulletIdx - k < bs.length := by
  intro bs
  induction bs with
  | nil => intro ip ei k c hc; simp [bulletCands] at hc
  | cons b bs ih =>
    intro ip ei k c hc
    rcases (by simpa [bulletCands] using hc :
        c = ⟨ip, ei, k, b.score⟩ ∨ c ∈ bulletCands ip ei (k + 1) bs) with h | h
    · subst h
      exact ⟨rfl, rfl, le_refl _, by simp⟩
    · obtain ⟨h1, h2, h3, h4⟩ := ih ip ei (k + 1) c h
      refine ⟨h1, h2, le_trans (Nat.le_succ k) h3, ?_⟩
      simp only [List.length_cons]
      omega

theorem mem_entryCandsExp_ge : ∀ (es : List NExp) (k : Nat) (c : Cand),
    c ∈ entryCandsExp k es → k ≤ c.entryIdx ∧ c.isProj = false := by
  intro es
  induction es with
  | nil => intro k c hc; simp [entryCandsExp] at hc
  | cons e es ih =>
    intro k c hc
    rcases List.mem_append.1 hc with h | h
    · obtain ⟨h1, h2, _, _⟩ := mem_bulletCands e.bullets false k 0 c h
      exact ⟨le_of_eq h2.symm, h1⟩
    · obtain ⟨h1, h2⟩ := ih (k + 1) c h
      exact ⟨le_trans (Nat.le_succ k) h1, h2⟩

theorem mem_entryCandsProj_ge : ∀ (ps : List NProj) (k : Nat) (c : Cand),
    c ∈ entryCandsProj k ps → k ≤ c.entryIdx ∧ c.isProj = true := by
  intro ps
  induction ps with
  | nil => intro k c hc; simp [entryCandsProj] at hc
  | cons p ps ih =>
    intro k c hc
    rcases List.mem_append.1 hc with h | h
    · obtain ⟨h1, h2, _, _⟩ := mem_bulletCands p.bullets true k 0 c h
      exact ⟨le_of_eq h2.symm, h1⟩
    · obtain ⟨h1, h2⟩ := ih (k + 1) c h
      exact ⟨le_trans (Nat.le_succ k) h1, h2⟩

theorem exp_remove_sum : ∀ (es : List NExp) (k : Nat) (c : Cand),
    c ∈ entryCandsExp k es →
    ((modifyAt es (c.entryIdx - k)
        (fun e => { e with bullets := e.bullets.eraseIdx c.bulletIdx })).map
      (fun e => e.bullets.length)).sum + 1
      = (es.map (fun e => e.bullets.length)).sum := by
  intro es
  induction es with
  | nil => intro k c hc; simp [entryCandsExp] at hc
  | cons e es ih =>
    intro k c hc
    rcases List.mem_append.1 hc with h | h
    · obtain ⟨_, hei, _, hlen⟩ := mem_bulletCands e.bullets false k 0 c h
      rw [Nat.sub_zero] at hlen
      rw [hei, Nat.sub_self]
      simp only [modifyAt, List.map, List.sum_cons]
      have he : (e.bullets.eraseIdx c.bulletIdx).length + 1 = e.bullets.length := by
        rw [List.length_eraseIdx, if_pos hlen]
        omega
      omega
    · have hge := (mem_entryCandsExp_ge es (k + 1) c h).1
      rw [show c.entryIdx - k = (c.entryIdx - (k + 1)) + 1 by omega]
      simp only [modifyAt, List.map, List.sum_cons]
      have := ih (k + 1) c h
      omega

theorem proj_remove_sum : ∀ (ps : List NProj) (k : Nat) (c : Cand),
    c ∈ entryCandsProj k ps →
    ((modifyAt ps (c.entryIdx - k)
        (fun p => { p with bullets := p.bullets.eraseIdx c.bulletIdx })).map
      (fun p => p.bullets.length)).sum + 1
      = (ps.map (fun p => p.bullets.length)).sum := by
  intro ps
  induction ps with
  | nil => intro k c hc; simp [entryCandsProj] at hc
  | cons p ps ih =>
    intro k c hc
    rcases List.mem_append.1 hc with h | h
    · obtain ⟨_, hei, _, hlen⟩ := mem_bulletCands p.bullets true k 0 c h
      rw [Nat.sub_zero] at hlen
      rw [hei, Nat.sub_self]
      simp only [modifyAt, List.map, List.sum_cons]
      have hp : (p.bullets.eraseIdx c.bulletIdx).length + 1 = p.bullets.length := by
        rw [List.length_eraseIdx, if_pos hlen]
        omega
      omega
    · have hge := (mem_entryCandsProj_ge ps (k + 1) c h).1
      rw [show c.entryIdx - k = (c.entryIdx - (k + 1)) + 1 by omega]
      simp only [modifyAt, List.map, List.sum_cons]
      have := ih (k + 1) c h
      omega

theorem removeCand_totalBullets {d : NData} {c : Cand} (hc : c ∈ candidates d) :
    totalBullets (removeCand d c) + 1 = totalBullets d := by
  rcases List.mem_append.1 hc with h | h
  · have hip : c.isProj = false := (mem_entryCandsExp_ge d.experience 0 c h).2
    unfold removeCand
    rw [if_neg (by rw [hip]; exact Bool.false_ne_true)]
    unfold totalBullets
    have hsum := exp_remove_sum d.experience 0 c h
    rw [Nat.sub_zero] at hsum
    simp only []
    omega
  · have hip : c.isProj = true := (mem_entryCandsProj_ge d.projects 0 c h).2
    unfold removeCand
    rw [if_pos hip]
    unfold totalBullets
    have hsum := proj_remove_sum d.projects 0 c h
    rw [Nat.sub_zero] at hsum
    simp only []
    omega

/-- Claim C4 counterexample: two bullets of the same entry are tied at
the globally lowest score 1.  The claim requires the trimming step to
remove the tied unit with the higher (later) original index, here the
second bullet; the code's strict-less scan keeps the first tied
candidate, so the step removes the FIRST bullet and leaves the second —
normalize's stable sort keeps equal-score bullets in original-index
order, so the earlier position is also the earlier original index. -/
theorem tie_break_counterexample :
    remove_lowest_bullet
        { name := "n", contact := ⟨"n", "", "", "", "", ""⟩,
          experience :=
            [⟨"Engineer", "Acme", "NYC", "2020",
              [⟨"first bullet", 1⟩, ⟨"second bullet", 1⟩]⟩],
          projects := [], education := [], skills := [] }
      = some
        { name := "n", contact := ⟨"n", "", "", "", "", ""⟩,
          experience :=
            [⟨"Engineer", "Acme", "NYC", "2020", [⟨"second bullet", 1⟩]⟩],
          projects := [], education := [], skills := [] } := rfl

/-- Claim C4 (amended): one trimming step removes exactly one unit —
the FIRST unit in scan order (all experience entries before all project
entries, entries and bullets in stored order) among those attaining the
globally lowest score, i.e. on ties the unit with the earliest position
(earliest original index), not the latest: every unit scanned before
the removed one has a strictly larger score, every unit has a score at
least as large, and the total unit count drops by exactly one. -/
theorem remove_lowest_first_min_amended (d d' : NData)
    (h : remove_lowest_bullet d = some d') :
    ∃ c, pickLowest (candidates d) = some c ∧ d' = removeCand d c ∧
      (∀ x ∈ candidates d, c.score ≤ x.score) ∧
      (∃ pre post, candidates d = pre ++ c :: post ∧ ∀ p ∈ pre, c.score < p.score) ∧
      totalBullets d' + 1 = totalBullets d := by
  unfold remove_lowest_bullet at h
  cases hp : pickLowest (candidates d) with
  | none => rw [hp] at h; exact absurd h (by simp)
  | some c =>
    rw [hp] at h
    have hd : d' = removeCand d c := (Option.some.inj h).symm
    obtain ⟨hall, pre, post, heq, hpre⟩ := pickLowest_spec _ _ hp
    have hcmem : c ∈ candidates d := by
      rw [heq]
      exact List.mem_append_right _ (List.mem_cons_self _ _)
    refine ⟨c, rfl, hd, hall, ⟨pre, post, heq, hpre⟩, ?_⟩
    rw [hd]
    exact removeCand_totalBullets hcmem

theorem remove_lowest_first_min_amended_witness :
    ∃ c, pickLowest (candidates
        { name := "n", contact := ⟨"n", "", "", "", "", ""⟩,
          experience := [⟨"Engineer", "Acme", "NYC", "2020", [⟨"only", 1⟩]⟩],
          projects := [], education := [], skills := [] }) = some c ∧
      ({ name := "n", contact := ⟨"n", "", "", "", "", ""⟩,
          experience := [⟨"Engineer", "Acme", "NYC", "2020", []⟩],
          projects := [], education := [], skills := [] } : NData)
        = removeCand
          { name := "n", contact := ⟨"n", "", "", "", "", ""⟩,
            experience := [⟨"Engineer", "Acme", "NYC", "2020", [⟨"only", 1⟩]⟩],
            projects := [], education := [], skills := [] } c ∧
      (∀ x ∈ candidates
          { name := "n", contact := ⟨"n", "", "", "", "", ""⟩,
            experience := [⟨"Engineer", "Acme", "NYC", "2020", [⟨"only", 1⟩]⟩],
            projects := [], education := [], skills := [] }, c.score ≤ x.score) ∧
      (∃ pre post, candidates
          { name := "n", contact := ⟨"n", "", "", "", "", ""⟩,
            experience := [⟨"Engineer", "Acme", "NYC", "2020", [⟨"only", 1⟩]⟩],
            projects := [], education := [], skills := [] } = pre ++ c :: post ∧
        ∀ p ∈ pre, c.score < p.score) ∧
      totalBullets
          { name := "n", contact := ⟨"n", "", "", "", "", ""⟩,
            experience := [⟨"Engineer", "Acme", "NYC", "2020", []⟩],
            projects := [], education := [], skills := [] } + 1
        = totalBullets
          { name := "n", contact := ⟨"n", "", "", "", "", ""⟩,
            experience := [⟨"Engineer", "Acme", "NYC", "2020", [⟨"only", 1⟩]⟩],
            projects := [], education := [], skills := [] } :=
  remove_lowest_first_min_amended _ _ rfl

end ResumeLayoutEngine

namespace ResumeLayoutEngine

theorem fitLoop_balanced_fits (cp : NData → Nat) :
    ∀ (fuel : Nat) (d : NData),
    (fitLoop cp fuel d).2 = SpacingMode.balanced → cp (fitLoop cp fuel d).1 ≤ 1 := by
  intro fuel
  induction fuel with
  | zero =>
    intro d h
    exact absurd h (by simp [fitLoop])
  | succ n ih =>
    intro d h
    simp only [fitLoop] at h ⊢
    by_cases hc : cp d ≤ 1
    · rw [if_pos hc]
      exact hc
    · rw [if_neg hc] at h ⊢
      revert h
      cases remove_lowest_bullet d with
      | none =>
        intro h
        exact absurd h (by simp)
      | some d' =>
        intro h
        exact ih d' h

end ResumeLayoutEngine

namespace LayoutEngine

theorem tryLevels_spec (mtw : String → ℚ → String → ℚ) (data : ResumeData)
    (s0 : LayoutSettings) :
    ∀ (r k : Nat) (s : LayoutSettings), k + r = 5 →
    ((k = 0 ∧ s = s0) ∨ (1 ≤ k ∧ s = settingsAt s0 (k - 1))) →
    ((tryLevels mtw data s k r).fits_on_page = true →
        k ≤ (tryLevels mtw data s k r).compression_level ∧
        (tryLevels mtw data s k r).compression_level < k + r ∧
        fitsAtLevel mtw s0 data (tryLevels mtw data s k r).compression_level ∧
        ∀ l, k ≤ l → l < (tryLevels mtw data s k r).compression_level →
          ¬ fitsAtLevel mtw s0 data l) ∧
    ((tryLevels mtw data s k r).fits_on_page = false →
        (tryLevels mtw data s k r).compression_level = 4 ∧
        ∀ l, k ≤ l → l < k + r → ¬ fitsAtLevel mtw s0 data l) := by
  intro r
  induction r with
  | zero =>
    intro k s hk hs
    constructor
    · intro hfit
      exact absurd hfit (by simp [tryLevels])
    · intro _
      refine ⟨rfl, ?_⟩
      intro l hl1 hl2
      omega
  | succ r ih =>
    intro k s hk hs
    have hs' : apply_compression k s = settingsAt s0 k := by
      rcases hs with ⟨hk0, hss⟩ | ⟨hk1, hss⟩
      · subst hk0
        subst hss
        rfl
      · cases k with
        | zero => omega
        | succ km =>
          subst hss
          simp only [Nat.add_sub_cancel]
          rfl
    simp only [tryLevels]
    by_cases hfit : (calculate_layout mtw (apply_compression k s) data).2
        ≤ content_area_height (apply_compression k s)
    · rw [if_pos hfit]
      constructor
      · intro _
        refine ⟨le_refl k, ?_, ?_, ?_⟩
        · show k < k + (r + 1)
          omega
        · unfold fitsAtLevel
          rw [← hs']
          exact hfit
        · intro l hl1 hl2
          have hlk : l < k := hl2
          exact absurd (lt_of_le_of_lt hl1 hlk) (lt_irrefl k)
      · intro hff
        exact absurd hff (by simp)
    · rw [if_neg hfit]
      have hnext := ih (k + 1) (apply_compression k s) (by omega)
        (Or.inr ⟨by omega, by simp only [Nat.add_sub_cancel]; exact hs'⟩)
      constructor
      · intro hfit'
        obtain ⟨h1, h2, h3, h4⟩ := hnext.1 hfit'
        refine ⟨by omega, by omega, h3, ?_⟩
        intro l hl1 hl2
        by_cases hlk : l = k
        · subst hlk
          unfold fitsAtLevel
          rw [← hs']
          exact hfit
        · exact h4 l (by omega) hl2
      · intro hff
        obtain ⟨h1, h2⟩ := hnext.2 hff
        refine ⟨h1, ?_⟩
        intro l hl1 hl2
        by_cases hlk : l = k
        · subst hlk
          unfold fitsAtLevel
          rw [← hs']
          exact hfit
        · exact h2 l (by omega) (by omega)

end LayoutEngine

namespace ResumeLayoutEngine

/-- Claim C3 counterexample: with a page counter that reports two pages
while the document holds two bullets and one page afterwards, the fit
loop removes a bullet at the loose default 'balanced' spacing and
returns with 'balanced' still in force: the more compressed 'compact'
spacing level was never tried before or during trimming (the source
sets 'compact' only after removal is exhausted or the iteration cap
trips), so a ContentUnit is removed while an unexhausted compression
level remains, refuting the claim. -/
theorem removal_before_compression_counterexample :
    fit_to_one_page
        (fun d => if 2 ≤ totalBullets d then 2 else 1)
        { name := "n", contact := ⟨"n", "", "", "", "", ""⟩,
          experience :=
            [⟨"Engineer", "Acme", "NYC", "2020", [⟨"keep", 2⟩, ⟨"drop", 1⟩]⟩],
          projects := [], education := [], skills := [] }
      = ({ name := "n", contact := ⟨"n", "", "", "", "", ""⟩,
           experience := [⟨"Engineer", "Acme", "NYC", "2020", [⟨"keep", 2⟩]⟩],
           projects := [], education := [], skills := [] },
         SpacingMode.balanced) := rfl

/-- Claim C3 (amended): the two fitting mechanisms are separate and each
is monotone on its own, but trimming does not wait for compression.  In
OverflowManager.fit_to_one_page the loop trims at the fixed loose
'balanced' spacing and a 'balanced' exit certifies a one-page fit (the
'compact' mode is only an overflow marker set on exit, never rendered
inside the loop).  In LayoutEngine.layout_resume the compression level
only advances: the returned level is at most 4; on a fit it is the
LEAST level at which the document fits (every lower level was measured
and failed), and on overflow level 4 is reported with every level 0..4
having been measured and failed — no ContentUnit is ever removed by
layout_resume. -/
theorem compression_ladder_amended (count_pages : NData → Nat) (fuel : Nat)
    (nd : NData) (mtw : String → ℚ → String → ℚ)
    (s0 : LayoutEngine.LayoutSettings) (data : LayoutEngine.ResumeData) :
    ((fitLoop count_pages fuel nd).2 = SpacingMode.balanced →
        count_pages (fitLoop count_pages fuel nd).1 ≤ 1) ∧
    (LayoutEngine.layout_resume mtw s0 data).compression_level ≤ 4 ∧
    ((LayoutEngine.layout_resume mtw s0 data).fits_on_page = true →
        LayoutEngine.fitsAtLevel mtw s0 data
          (LayoutEngine.layout_resume mtw s0 data).compression_level ∧
        ∀ l < (LayoutEngine.layout_resume mtw s0 data).compression_level,
          ¬ LayoutEngine.fitsAtLevel mtw s0 data l) ∧
    ((LayoutEngine.layout_resume mtw s0 data).fits_on_page = false →
        (LayoutEngine.layout_resume mtw s0 data).compression_level = 4 ∧
        ∀ l ≤ 4, ¬ LayoutEngine.fitsAtLevel mtw s0 data l) := by
  have hspec := LayoutEngine.tryLevels_spec mtw data s0 5 0 s0 rfl (Or.inl ⟨rfl, rfl⟩)
  refine ⟨fitLoop_balanced_fits count_pages fuel nd, ?_, ?_, ?_⟩
  · unfold LayoutEngine.layout_resume
    cases hb : (LayoutEngine.tryLevels mtw data s0 0 5).fits_on_page with
    | false =>
      have h4 := (hspec.2 hb).1
      omega
    | true =>
      have h5 := (hspec.1 hb).2.1
      omega
  · unfold LayoutEngine.layout_resume
    intro h
    obtain ⟨h1, h2, h3, h4⟩ := hspec.1 h
    exact ⟨h3, fun l hl => h4 l (Nat.zero_le l) hl⟩
  · unfold LayoutEngine.layout_resume
    intro h
    obtain ⟨h1, h2⟩ := hspec.2 h
    exact ⟨h1, fun l hl => h2 l (Nat.zero_le l) (by omega)⟩

end ResumeLayoutEngine

namespace ResumeLayoutEngine

/-- Claim C9: a document that already fits at the loosest level is
returned unchanged, at that loosest level, with zero ContentUnits
removed.  For OverflowManager.fit_to_one_page: when the first
render-and-measure already reports at most one page, the input document
is returned untouched with the loose 'balanced' spacing.  For
LayoutEngine.layout_resume: when the measurement at compression level 0
(the constructor's settings, which _apply_compression leaves untouched
at level 0) fits the content area, the result is exactly the level-0
layout of the unchanged data, fits_on_page = true, compression_level =
0, settings unchanged. -/
theorem already_fitting_unchanged (count_pages : NData → Nat) (d : NData)
    (mtw : String → ℚ → String → ℚ) (s0 : LayoutEngine.LayoutSettings)
    (data : LayoutEngine.ResumeData) :
    (count_pages d ≤ 1 → fit_to_one_page count_pages d = (d, SpacingMode.balanced)) ∧
    ((LayoutEngine.calculate_layout mtw s0 data).2 ≤ LayoutEngine.content_area_height s0 →
      LayoutEngine.layout_resume mtw s0 data =
        ⟨(LayoutEngine.calculate_layout mtw s0 data).1,
         (LayoutEngine.calculate_layout mtw s0 data).2, true, 0, s0⟩) := by
  constructor
  · intro h
    show fitLoop count_pages (49 + 1) d = (d, SpacingMode.balanced)
    simp only [fitLoop]
    rw [if_pos h]
  · intro h
    show LayoutEngine.tryLevels mtw data s0 0 (4 + 1) = _
    simp only [LayoutEngine.tryLevels]
    rw [show LayoutEngine.apply_compression 0 s0 = s0 from rfl]
    rw [if_pos h]

theorem already_fitting_unchanged_witness :
    ((fun _ : NData => 1)
        { name := "n", contact := ⟨"n", "", "", "", "", ""⟩,
          experience := [⟨"Engineer", "Acme", "NYC", "2020", [⟨"only", 1⟩]⟩],
          projects := [], education := [], skills := [] } ≤ 1 ∧
      fit_to_one_page (fun _ => 1)
        { name := "n", contact := ⟨"n", "", "", "", "", ""⟩,
          experience := [⟨"Engineer", "Acme", "NYC", "2020", [⟨"only", 1⟩]⟩],
          projects := [], education := [], skills := [] }
        = ({ name := "n", contact := ⟨"n", "", "", "", "", ""⟩,
             experience := [⟨"Engineer", "Acme", "NYC", "2020", [⟨"only", 1⟩]⟩],
             projects := [], education := [], skills := [] }, SpacingMode.balanced)) ∧
    ((LayoutEngine.calculate_layout (fun _ _ _ => 0) {}
          ⟨⟨"", LayoutEngine.LContact.list []⟩, []⟩).2
        ≤ LayoutEngine.content_area_height {} ∧
      LayoutEngine.layout_resume (fun _ _ _ => 0) {}
          ⟨⟨"", LayoutEngine.LContact.list []⟩, []⟩ =
        ⟨(LayoutEngine.calculate_layout (fun _ _ _ => 0) {}
            ⟨⟨"", LayoutEngine.LContact.list []⟩, []⟩).1,
         (LayoutEngine.calculate_layout (fun _ _ _ => 0) {}
            ⟨⟨"", LayoutEngine.LContact.list []⟩, []⟩).2, true, 0, {}⟩) := by
  have hT := already_fitting_unchanged (fun _ => 1)
    { name := "n", contact := ⟨"n", "", "", "", "", ""⟩,
      experience := [⟨"Engineer", "Acme", "NYC", "2020", [⟨"only", 1⟩]⟩],
      projects := [], education := [], skills := [] }
    (fun _ _ _ => 0) {} ⟨⟨"", LayoutEngine.LContact.list []⟩, []⟩
  have h1 : (1 : Nat) ≤ 1 := le_refl 1
  have hcl : LayoutEngine.calculate_layout (fun _ _ _ => 0) {}
      ⟨⟨"", LayoutEngine.LContact.list []⟩, []⟩
      = ([], (0.5 : ℚ) + 0.15) := rfl
  have h2 : (LayoutEngine.calculate_layout (fun _ _ _ => 0) {}
      ⟨⟨"", LayoutEngine.LContact.list []⟩, []⟩).2
      ≤ LayoutEngine.content_area_height {} := by
    rw [hcl]
    show (0.5 + 0.15 : ℚ) ≤ (11.0 : ℚ) - 0.5 - 0.5
    norm_num
  exact ⟨⟨h1, hT.1 h1⟩, ⟨h2, hT.2 h2⟩⟩

theorem compression_ladder_amended_witness :
    ((fitLoop (fun _ => 1) 50
        { name := "n", contact := ⟨"n", "", "", "", "", ""⟩,
          experience := [⟨"Engineer", "Acme", "NYC", "2020", [⟨"only", 1⟩]⟩],
          projects := [], education := [], skills := [] }).2 = SpacingMode.balanced →
      (fun _ => 1) ((fitLoop (fun _ => 1) 50
        { name := "n", contact := ⟨"n", "", "", "", "", ""⟩,
          experience := [⟨"Engineer", "Acme", "NYC", "2020", [⟨"only", 1⟩]⟩],
          projects := [], education := [], skills := [] }).1 : NData) ≤ 1) ∧
    (LayoutEngine.layout_resume (fun _ _ _ => 0) {}
        ⟨⟨"", LayoutEngine.LContact.list []⟩, []⟩).compression_level ≤ 4 ∧
    ((LayoutEngine.layout_resume (fun _ _ _ => 0) {}
        ⟨⟨"", LayoutEngine.LContact.list []⟩, []⟩).fits_on_page = true →
      LayoutEngine.fitsAtLevel (fun _ _ _ => 0) {} ⟨⟨"", LayoutEngine.LContact.list []⟩, []⟩
        (LayoutEngine.layout_resume (fun _ _ _ => 0) {}
          ⟨⟨"", LayoutEngine.LContact.list []⟩, []⟩).compression_level ∧
      ∀ l < (LayoutEngine.layout_resume (fun _ _ _ => 0) {}
          ⟨⟨"", LayoutEngine.LContact.list []⟩, []⟩).compression_level,
        ¬ LayoutEngine.fitsAtLevel (fun _ _ _ => 0) {}
            ⟨⟨"", LayoutEngine.LContact.list []⟩, []⟩ l) ∧
    ((LayoutEngine.layout_resume (fun _ _ _ => 0) {}
        ⟨⟨"", LayoutEngine.LContact.list []⟩, []⟩).fits_on_page = false →
      (LayoutEngine.layout_resume (fun _ _ _ => 0) {}
          ⟨⟨"", LayoutEngine.LContact.list []⟩, []⟩).compression_level = 4 ∧
      ∀ l ≤ 4, ¬ LayoutEngine.fitsAtLevel (fun _ _ _ => 0) {}
          ⟨⟨"", LayoutEngine.LContact.list []⟩, []⟩ l) :=
  compression_ladder_amended (fun _ => 1) 50
    { name := "n", contact := ⟨"n", "", "", "", "", ""⟩,
      experience := [⟨"Engineer", "Acme", "NYC", "2020", [⟨"only", 1⟩]⟩],
      projects := [], education := [], skills := [] }
    (fun _ _ _ => 0) {} ⟨⟨"", LayoutEngine.LContact.list []⟩, []⟩

end ResumeLayoutEngine
